import Mathlib

set_option maxRecDepth 4000

/-!
Verification of the nmigen-soc repository against its natural-language
specification.  The Python sources are shallowly embedded: each nMigen
synchronous process becomes an explicit next-state function on Nat-valued
signals (with truncation by powers of two where a signal width truncates),
Python exceptions become Except values, and combinational outputs become
pure functions of the sampled state.  Within a sync process, nMigen gives
the last executed assignment to a signal priority over earlier ones, which
the embedding reproduces with if/else chains and left folds.
-/

namespace NmigenSoc

/-- Bit slice of a Nat value: bits [start, start+width) of v, corresponding
to nMigen signal slicing v[start:start+width] (zero-extended). -/
def getSlice (v start width : Nat) : Nat := (v >>> start) % 2 ^ width

/-- Mask with ones exactly at bits [start, start+width). -/
def sliceMask (start width : Nat) : Nat := (2 ^ width - 1) <<< start

/-- Bitwise and-not (v & ~m over Python's nonnegative ints), written with
xor so that it evaluates by kernel reduction. -/
def andNot (v m : Nat) : Nat := v ^^^ (v &&& m)

theorem testBit_andNot (v m k : Nat) :
    (andNot v m).testBit k = (v.testBit k && !(m.testBit k)) := by
  unfold andNot
  rw [Nat.testBit_xor, Nat.testBit_land]
  cases v.testBit k <;> cases m.testBit k <;> rfl

/-- Result of assigning x to the slice [start, start+width) of v, leaving the
other bits of v unchanged (nMigen slice assignment; x is truncated to the
slice width). -/
def setSlice (v start width x : Nat) : Nat :=
  (andNot v (sliceMask start width)) ||| ((x % 2 ^ width) <<< start)

theorem testBit_sliceMask (start width k : Nat) :
    (sliceMask start width).testBit k = decide (start ≤ k ∧ k < start + width) := by
  rw [sliceMask, Nat.testBit_shiftLeft, Nat.testBit_two_pow_sub_one, Bool.eq_iff_iff]
  simp only [Bool.and_eq_true, decide_eq_true_eq]
  omega

theorem testBit_setSlice (v start width x k : Nat) :
    (setSlice v start width x).testBit k =
      if start ≤ k ∧ k < start + width then x.testBit (k - start) else v.testBit k := by
  simp only [setSlice, Nat.testBit_lor, testBit_andNot, testBit_sliceMask,
    Nat.testBit_shiftLeft, Nat.testBit_mod_two_pow]
  by_cases h : start ≤ k ∧ k < start + width
  · have h2 : k - start < width := by omega
    simp [h, h.1, h2]
  · rw [if_neg h]
    by_cases h1 : start ≤ k
    · have h2 : ¬ (k - start < width) := by omega
      have h3 : start + width ≤ k := by omega
      simp [h, h1, h2, h3]
    · simp [h, h1]

theorem testBit_getSlice (v start width k : Nat) :
    (getSlice v start width).testBit k = (decide (k < width) && v.testBit (start + k)) := by
  simp [getSlice, Nat.testBit_mod_two_pow, Nat.testBit_shiftRight]

/-- Truncating a value to n bits does not change a slice lying below bit n. -/
theorem getSlice_mod_pow (v start width n : Nat) (h : start + width ≤ n) :
    getSlice (v % 2 ^ n) start width = getSlice v start width := by
  apply Nat.eq_of_testBit_eq
  intro k
  simp only [testBit_getSlice, Nat.testBit_mod_two_pow]
  by_cases hk : k < width
  · have : start + k < n := by omega
    simp [hk, this]
  · simp [hk]

/-- Slices of two values agree as soon as the two values agree on every bit
of the slice. -/
theorem getSlice_congr (a b start width : Nat)
    (h : ∀ k, start ≤ k → k < start + width → a.testBit k = b.testBit k) :
    getSlice a start width = getSlice b start width := by
  apply Nat.eq_of_testBit_eq
  intro k
  simp only [testBit_getSlice]
  by_cases hk : k < width
  · simp only [hk, decide_True, Bool.true_and]
    exact h (start + k) (Nat.le_add_right ..) (by omega)
  · simp [hk]

/-! ## Round-robin scheduler (scheduler.py) -/

/-- Next-grant function generated by RoundRobin.elaborate
(scheduler.py lines 30-45).  The Switch over grant selects Case i; when
request[i] is low, conditional grant assignments are emitted for
j = i+n-1 down to i+1, and in a sync process a later statement overrides an
earlier one, so a left fold over that reversed range with last-write-wins
reproduces the generated logic.  When stb is low, or request[grant] is
high, no assignment fires and the grant holds. -/
def roundRobinNext (n : Nat) (request : Nat → Bool) (grant : Nat) (stb : Bool) : Nat :=
  if stb then
    if grant < n then
      if request grant then grant
      else ((List.range' (grant + 1) (n - 1)).reverse).foldl
        (fun g j => if request (j % n) then j % n else g) grant
    else grant
  else grant

/-- First position, scanning forward cyclically from grant+1 through all n
positions, whose request bit is set; the grant itself when no request bit is
set.  This is the scan order stated by the specification. -/
def rrScanFirst (n : Nat) (request : Nat → Bool) (grant : Nat) : Nat :=
  match (List.range' (grant + 1) n).find? (fun j => request (j % n)) with
  | some j => j % n
  | none => grant

theorem rrFoldr_eq_find (request : Nat → Bool) (n : Nat) (l : List Nat) (g : Nat) :
    l.foldr (fun j acc => if request (j % n) then j % n else acc) g =
      match l.find? (fun j => request (j % n)) with
      | some j => j % n
      | none => g := by
  induction l with
  | nil => rfl
  | cons j t ih =>
    simp only [List.foldr_cons, List.find?_cons]
    cases h : request (j % n) <;> simp [h, ih]

/-- C3: with the advance strobe asserted, the grant is unchanged when the
granted request bit is high, and otherwise moves to the first position whose
request bit is set, scanning forward cyclically from grant+1 through all n
positions; with the strobe deasserted the grant persists. -/
theorem C3_round_robin_next (n : Nat) (request : Nat → Bool) (grant : Nat) (stb : Bool)
    (hg : grant < n) :
    roundRobinNext n request grant stb =
      if stb then
        (if request grant then grant else rrScanFirst n request grant)
      else grant := by
  unfold roundRobinNext
  cases stb with
  | false => simp
  | true =>
    simp only [if_true, hg, if_pos]
    cases hreq : request grant with
    | true => simp
    | false =>
      simp only [Bool.false_eq_true, if_false]
      rw [List.foldl_reverse]
      rw [rrFoldr_eq_find]
      unfold rrScanFirst
      have hsplit : List.range' (grant + 1) n =
          List.range' (grant + 1) (n - 1) ++ [grant + n] := by
        have hc := @List.range'_concat 1 (grant + 1) (n - 1)
        have hn : (n - 1) + 1 = n := by omega
        have he : grant + 1 + 1 * (n - 1) = grant + n := by omega
        rw [hn, he] at hc
        exact hc
      rw [hsplit, List.find?_append]
      cases hfind : (List.range' (grant + 1) (n - 1)).find? (fun j => request (j % n)) with
      | some j => simp
      | none =>
        have hmod : (grant + n) % n = grant := by
          rw [Nat.add_mod_right]
          exact Nat.mod_eq_of_lt hg
        simp [List.find?, hmod, hreq]

/-- C3 witness: with four requesters, current grant 1 and only requester 3
asserting, an advance strobe moves the grant to 3. -/
theorem C3_round_robin_next_witness :
    roundRobinNext 4 (fun i => decide (i = 3)) 1 true = 3 := by
  have h := C3_round_robin_next 4 (fun i => decide (i = 3)) 1 true (by decide)
  rw [h]
  decide

/-- Grant trace of the scheduler for n = 3 with every request bit held high
and the advance strobe held high, starting from grant 0. -/
def rrAllRequestTrace : Nat → Nat
  | 0 => 0
  | k + 1 => roundRobinNext 3 (fun _ => true) (rrAllRequestTrace k) true

/-- Grant trace of the scheduler for n = 3 with the advance strobe held high
where, each cycle, the current owner deasserts its request and the other two
requesters keep requesting. -/
def rrHandoffTrace : Nat → Nat
  | 0 => 0
  | k + 1 => roundRobinNext 3 (fun i => decide (i ≠ rrHandoffTrace k)) (rrHandoffTrace k) true

/-- C4 counterexample: with all three requesters asserting continuously the
grant never advances past 0, while the claim predicts grants 1 and 2 after
one and two advance strobes.  The scan for a new grant in
RoundRobin.elaborate runs only when the granted request bit is low, so a
continuously-requesting owner is never preempted. -/
theorem C4_round_robin_fairness_counterexample :
    rrAllRequestTrace 1 = 0 ∧ rrAllRequestTrace 2 = 0 := by
  exact ⟨rfl, rfl⟩

/-- C4 amended: with all three requesters asserting continuously the grant
never changes (it stays 0 forever); the successive grants cycle
0, 1, 2, 0, ... when on each advance the current owner deasserts its
request while the other two requesters keep theirs high; and in general,
while the granted request bit stays high the grant never changes, whatever
the other request bits are. -/
theorem C4_round_robin_fairness_amended :
    (∀ k, rrAllRequestTrace k = 0) ∧
    (∀ k, rrHandoffTrace k = k % 3) ∧
    (∀ n request grant stb, grant < n → request grant = true →
      roundRobinNext n request grant stb = grant) := by
  refine ⟨?_, ?_, ?_⟩
  · intro k
    induction k with
    | zero => rfl
    | succ k ih =>
      have hstep : rrAllRequestTrace (k + 1)
          = roundRobinNext 3 (fun _ => true) (rrAllRequestTrace k) true := rfl
      rw [hstep, ih]
      decide
  · intro k
    induction k with
    | zero => rfl
    | succ k ih =>
      have hstep : rrHandoffTrace (k + 1)
          = roundRobinNext 3 (fun i => decide (i ≠ rrHandoffTrace k)) (rrHandoffTrace k) true :=
        rfl
      rw [hstep, ih]
      have hm : k % 3 = 0 ∨ k % 3 = 1 ∨ k % 3 = 2 := by omega
      rcases hm with h | h | h
      · rw [h, (by decide : roundRobinNext 3 (fun i => decide (i ≠ 0)) 0 true = 1)]; omega
      · rw [h, (by decide : roundRobinNext 3 (fun i => decide (i ≠ 1)) 1 true = 2)]; omega
      · rw [h, (by decide : roundRobinNext 3 (fun i => decide (i ≠ 2)) 2 true = 0)]; omega
  · intro n request grant stb hg hreq
    unfold roundRobinNext
    cases stb <;> simp [hg, hreq]

/-- C4 witness: the handoff trace reaches grant 1 after one advance, and with
requesters 0 and 2 also pending, a granted requester 1 that keeps requesting
keeps the grant. -/
theorem C4_round_robin_fairness_amended_witness :
    rrHandoffTrace 1 = 1 ∧ roundRobinNext 3 (fun _ => true) 1 true = 1 := by
  refine ⟨?_, ?_⟩
  · have h := C4_round_robin_fairness_amended.2.1 1
    simpa using h
  · exact C4_round_robin_fairness_amended.2.2 3 (fun _ => true) 1 true (by decide) rfl

/-! ## Wishbone-to-CSR bridge (csr/wishbone.py) -/

/-- State held by WishboneCSRBridge.elaborate: the cycle counter
(Signal(range(len(sel) + 2))) and the wide-side acknowledge. -/
structure BridgeState where
  counter : Nat
  ack : Bool

/-- Synchronous update of WishboneCSRBridge.elaborate
(csr/wishbone.py lines 56-107), restricted to the state-holding signals
counter and ack.  selWidth is len(wb_bus.sel) = data_width / granularity;
req is wb_bus.cyc & wb_bus.stb; sel and we are the byte-select and
write-enable inputs, which the counter and ack updates never read (the
Switch is over counter alone, and each Case advances the counter
unconditionally).  Case indices 0..selWidth-1 advance the counter;
Case selWidth sets ack and moves to selWidth+1, where the counter holds
until the request drops; deasserting the request resets the counter.  The
trailing If(ack) assignment comes last in the sync process, so it overrides
the Case assignment and forces ack low whenever ack is currently high. -/
def bridgeStep (selWidth : Nat) (sel : Nat) (we req : Bool) (st : BridgeState) : BridgeState :=
  let counterNext :=
    if req then
      if st.counter < selWidth then st.counter + 1
      else if st.counter = selWidth then selWidth + 1
      else st.counter
    else 0
  let ackCase := if req then (if st.counter = selWidth then true else st.ack) else st.ack
  let ackNext := if st.ack then false else ackCase
  { counter := counterNext, ack := ackNext }

/-- Bridge state trace from power-on (counter 0, ack low) under per-cycle
inputs sel, we and req. -/
def bridgeTrace (selWidth : Nat) (sel : Nat → Nat) (we req : Nat → Bool) : Nat → BridgeState
  | 0 => { counter := 0, ack := false }
  | k + 1 => bridgeStep selWidth (sel k) (we k) (req k) (bridgeTrace selWidth sel we req k)

theorem bridgeTrace_characterization (selWidth : Nat) (hS : 1 ≤ selWidth)
    (sel : Nat → Nat) (we req : Nat → Bool) (hreq : ∀ t, req t = true) (k : Nat) :
    (bridgeTrace selWidth sel we req k).counter = min k (selWidth + 1) ∧
    (bridgeTrace selWidth sel we req k).ack = decide (k = selWidth + 1) := by
  induction k with
  | zero =>
    constructor
    · simp [bridgeTrace]
    · simp [bridgeTrace]
  | succ k ih =>
    obtain ⟨hc, ha⟩ := ih
    have hstep : bridgeTrace selWidth sel we req (k + 1)
        = bridgeStep selWidth (sel k) (we k) (req k) (bridgeTrace selWidth sel we req k) := rfl
    rw [hstep]
    simp only [bridgeStep, hreq k, if_true, hc, ha]
    constructor
    · split_ifs <;> omega
    · by_cases hk : k = selWidth + 1
      · simp [hk]
      · have hd : decide (k = selWidth + 1) = false := by simp [hk]
        rw [hd]
        by_cases hkS : k = selWidth
        · have : min k (selWidth + 1) = selWidth := by omega
          simp [this, hkS]
        · have : min k (selWidth + 1) ≠ selWidth := by omega
          simp [this, hkS]

/-- C5: with the wide-side request (CYC and STB) held, the wide-side
acknowledge of the bridge is asserted exactly at cycle selWidth + 1
(selWidth = D2/D1 slice cycles, then the acknowledge cycle) and at no other
cycle, for every byte-select and write-enable input; and deasserting the
request resets the internal cycle counter to 0. -/
theorem C5_bridge_latency (selWidth : Nat) (hS : 1 ≤ selWidth)
    (sel : Nat → Nat) (we req : Nat → Bool) (hreq : ∀ t, req t = true) :
    (∀ k, (bridgeTrace selWidth sel we req k).ack = decide (k = selWidth + 1)) ∧
    (∀ st s w, (bridgeStep selWidth s w false st).counter = 0) := by
  constructor
  · intro k
    exact (bridgeTrace_characterization selWidth hS sel we req hreq k).2
  · intro st s w
    simp [bridgeStep]

/-- C5 witness: for a 32-bit Wishbone side over an 8-bit CSR side
(selWidth 4), with request held and an arbitrary byte-select pattern, the
acknowledge is low at cycle 4, high at cycle 5 and low again at cycle 6,
and a deasserted request clears the counter. -/
theorem C5_bridge_latency_witness :
    (bridgeTrace 4 (fun _ => 0b1010) (fun _ => true) (fun _ => true) 4).ack = false ∧
    (bridgeTrace 4 (fun _ => 0b1010) (fun _ => true) (fun _ => true) 5).ack = true ∧
    (bridgeTrace 4 (fun _ => 0b1010) (fun _ => true) (fun _ => true) 6).ack = false ∧
    (bridgeStep 4 0b1111 false false ⟨3, false⟩).counter = 0 := by
  have h := C5_bridge_latency 4 (by decide) (fun _ => 0b1010) (fun _ => true) (fun _ => true)
    (fun _ => rfl)
  refine ⟨?_, ?_, ?_, h.2 ⟨3, false⟩ 0b1111 false⟩
  · rw [h.1 4]; decide
  · rw [h.1 5]; decide
  · rw [h.1 6]; decide

/-! ## Wishbone decoder construction-time checks (wishbone/bus.py) -/

/-- Parameters and optional-signal declarations of a wishbone.Interface that
Decoder.add consults (wishbone/bus.py). -/
structure WBIntf where
  addr_width : Nat
  data_width : Nat
  granularity : Nat
  has_err : Bool
  has_rty : Bool
  has_stall : Bool

/-- Errors raised by Decoder.add; every constructor is a ValueError in the
source, distinguished here by its message. -/
inductive DecoderAddErr
  | granularityTooBig
  | denseWidthMismatch
  | sparseGranularityMismatch
  | missingErrInput
  | missingRtyInput
  | missingStallInput
deriving DecidableEq

/-- Decoder as far as add is concerned: its own bus interface and the
registered subordinate buses. -/
structure WBDecoder where
  bus : WBIntf
  subs : List WBIntf

/-- Decoder.add (wishbone/bus.py lines 215-252): the construction-time
checks, then registration of the subordinate.  A raise leaves the decoder
unchanged and adds no window (the successful window allocation itself lives
in MemoryMap.add_window, outside these checks).  The source iterates the
optional outputs err, rty, stall as a Python set, so only the relative
order of those three error messages is unspecified; the model fixes one
order. -/
def decoderAdd (dec : WBDecoder) (sub : WBIntf) (sparse : Bool) :
    Except DecoderAddErr WBDecoder :=
  if dec.bus.granularity < sub.granularity then .error .granularityTooBig
  else if sparse = false ∧ sub.data_width ≠ dec.bus.data_width then .error .denseWidthMismatch
  else if sparse = true ∧ sub.granularity ≠ sub.data_width then
    .error .sparseGranularityMismatch
  else if sub.has_err = true ∧ dec.bus.has_err = false then .error .missingErrInput
  else if sub.has_rty = true ∧ dec.bus.has_rty = false then .error .missingRtyInput
  else if sub.has_stall = true ∧ dec.bus.has_stall = false then .error .missingStallInput
  else .ok { dec with subs := dec.subs ++ [sub] }

/-- C9: Decoder.add raises a construction-time error, registering no window,
whenever the subordinate granularity exceeds the decoder granularity, or the
data widths differ under dense translation, or the subordinate declares an
optional output (err, rty or stall) the decoder lacks. -/
theorem C9_decoder_add_raises (dec : WBDecoder) (sub : WBIntf) (sparse : Bool)
    (h : dec.bus.granularity < sub.granularity ∨
         (sparse = false ∧ sub.data_width ≠ dec.bus.data_width) ∨
         (sub.has_err = true ∧ dec.bus.has_err = false) ∨
         (sub.has_rty = true ∧ dec.bus.has_rty = false) ∨
         (sub.has_stall = true ∧ dec.bus.has_stall = false)) :
    ∃ e, decoderAdd dec sub sparse = .error e := by
  unfold decoderAdd
  split_ifs <;> first
    | exact ⟨_, rfl⟩
    | (exfalso; tauto)

/-- C9 witness: a subordinate of granularity 16 with an err output cannot be
added to a decoder of granularity 8 without an err input. -/
theorem C9_decoder_add_raises_witness :
    ∃ e, decoderAdd
      ⟨⟨16, 32, 8, false, false, false⟩, []⟩
      ⟨14, 32, 16, true, false, false⟩ false = .error e := by
  exact C9_decoder_add_raises _ _ false (by left; decide)

/-- CSR bus interface parameters consulted by WishboneCSRBridge.__init__.
Modelled from the spec: the register-bus front-end interface
(csr.bus.Interface, whose file csr/bus.py is not under src) reduced to the
attributes the constructor reads, its address width and data width. -/
structure CSRBusIntf where
  addr_width : Nat
  data_width : Nat

/-- Argument passed as csr_bus to WishboneCSRBridge: either a CSR bus
interface instance or any other Python value. -/
inductive BridgeArg
  | csrIntf (intf : CSRBusIntf)
  | notAnIntf

/-- Errors raised by WishboneCSRBridge.__init__; both are ValueError in the
source. -/
inductive BridgeErr
  | valueErrNotInterface
  | valueErrDataWidth
deriving DecidableEq

/-- Wishbone-side parameters the bridge constructor derives on success. -/
structure BridgeResult where
  csr_data_width : Nat
  wb_data_width : Nat
  wb_granularity : Nat
  wb_addr_width : Nat

/-- WishboneCSRBridge.__init__ (csr/wishbone.py lines 35-54): the validation
checks, the data_width default, and the derived Wishbone interface
parameters.  data_width None is Option.none; log2_int becomes Nat.log2
(exact on the power-of-two ratios reached here); max(0, a - b) is Nat
subtraction. -/
def wishboneCSRBridgeInit (csr_bus : BridgeArg) (data_width : Option Nat) :
    Except BridgeErr BridgeResult :=
  match csr_bus with
  | .notAnIntf => .error .valueErrNotInterface
  | .csrIntf intf =>
    if intf.data_width = 8 ∨ intf.data_width = 16 ∨ intf.data_width = 32 ∨
        intf.data_width = 64 then
      let dw := data_width.getD intf.data_width
      .ok { csr_data_width := intf.data_width,
            wb_data_width := dw,
            wb_granularity := intf.data_width,
            wb_addr_width := intf.addr_width - (dw / intf.data_width).log2 }
    else .error .valueErrDataWidth

/-- C10: the bridge constructor succeeds only on a CSR interface instance
whose data width is 8, 16, 32 or 64; any other data width raises ValueError,
as does a non-interface argument, and no bridge is built. -/
theorem C10_bridge_init_validation :
    (∀ intf dw res, wishboneCSRBridgeInit (.csrIntf intf) dw = .ok res →
        intf.data_width = 8 ∨ intf.data_width = 16 ∨ intf.data_width = 32 ∨
        intf.data_width = 64) ∧
    (∀ intf dw, ¬ (intf.data_width = 8 ∨ intf.data_width = 16 ∨ intf.data_width = 32 ∨
        intf.data_width = 64) →
        wishboneCSRBridgeInit (.csrIntf intf) dw = .error .valueErrDataWidth) ∧
    (∀ dw, wishboneCSRBridgeInit .notAnIntf dw = .error .valueErrNotInterface) := by
  refine ⟨?_, ?_, ?_⟩
  · intro intf dw res hok
    by_cases h : intf.data_width = 8 ∨ intf.data_width = 16 ∨ intf.data_width = 32 ∨
        intf.data_width = 64
    · exact h
    · simp [wishboneCSRBridgeInit, h] at hok
  · intro intf dw h
    simp [wishboneCSRBridgeInit, h]
  · intro dw
    rfl

/-- C10 witness: a CSR bus of data width 12 is rejected with ValueError and a
non-interface argument is rejected with ValueError. -/
theorem C10_bridge_init_validation_witness :
    wishboneCSRBridgeInit (.csrIntf ⟨10, 12⟩) none = .error .valueErrDataWidth ∧
    wishboneCSRBridgeInit .notAnIntf none = .error .valueErrNotInterface := by
  refine ⟨?_, C10_bridge_init_validation.2.2 none⟩
  exact C10_bridge_init_validation.2.1 ⟨10, 12⟩ none (by decide)

/-! ## CSRBus chunked atomic read (csr_bus.py) -/

/-- State held by CSRBus.elaborate on the read path for a register with
atomic_r set: the read buffer r_b (width size - datwidth) and the registered
dat_r output of each minicsr chunk. -/
structure CSRBusState where
  r_b : Nat
  dat_r : Nat → Nat

/-- Synchronous read-path update of CSRBus.elaborate
(csr_bus.py lines 107-116) for a register configured atomic_r.  size is
csr.get_size() (the register width W), datwidth the bus data width D, re i
is minicsrs[i].re, and r the combinational read composition self.r sampled
this cycle.  Under re 0, Cat(dat_r, r_b).eq(r) loads the low D bits of r
into chunk 0's dat_r and the remaining high bits into the buffer r_b; under
re i for i > 0, dat_r copies r_b[(i-1)*D : i*D] (clamped to the buffer
width and zero-extended, as nMigen slicing does).  Without atomic_r the
source drives dat_r combinationally and holds no state, so that branch has
no synchronous update to embed. -/
def csrBusReadStep (size datwidth : Nat) (re : Nat → Bool) (r : Nat)
    (st : CSRBusState) : CSRBusState :=
  { r_b := if re 0 then (r >>> datwidth) % 2 ^ (size - datwidth) else st.r_b,
    dat_r := fun i =>
      if re i then
        if i = 0 then r % 2 ^ datwidth
        else (st.r_b >>> ((i - 1) * datwidth)) % 2 ^ datwidth
      else st.dat_r i }

/-- Chunked read sequence: at cycle j the strobe of chunk j alone is
asserted, while the combinational read value seen at cycle j is vals[j - j0]
(the register is free to change between cycles). -/
def csrBusReadSeq (size datwidth : Nat) (j : Nat) (vals : List Nat)
    (st : CSRBusState) : CSRBusState :=
  match vals with
  | [] => st
  | v :: rest =>
    csrBusReadSeq size datwidth (j + 1) rest
      (csrBusReadStep size datwidth (fun c => c == j) v st)

theorem csrBusReadSeq_r_b (size datwidth : Nat) (vals : List Nat) (j : Nat)
    (hj : 1 ≤ j) (st : CSRBusState) :
    (csrBusReadSeq size datwidth j vals st).r_b = st.r_b := by
  induction vals generalizing j st with
  | nil => rfl
  | cons v rest ih =>
    have hre : (0 == j) = false := by
      simp
      omega
    show (csrBusReadSeq size datwidth (j + 1) rest _).r_b = st.r_b
    rw [ih (j + 1) (by omega)]
    simp [csrBusReadStep, hre]

theorem csrBusReadSeq_dat_r_past (size datwidth : Nat) (vals : List Nat) (j i : Nat)
    (hij : i < j) (st : CSRBusState) :
    (csrBusReadSeq size datwidth j vals st).dat_r i = st.dat_r i := by
  induction vals generalizing j st with
  | nil => rfl
  | cons v rest ih =>
    have hre : (i == j) = false := by
      simp
      omega
    show (csrBusReadSeq size datwidth (j + 1) rest _).dat_r i = st.dat_r i
    rw [ih (j + 1) (by omega)]
    simp only [csrBusReadStep]
    simp [hre]

theorem csrBusReadSeq_dat_r_from_buf (size datwidth : Nat) (vals : List Nat) (j i : Nat)
    (hj : 1 ≤ j) (hji : j ≤ i) (hlen : i < j + vals.length) (st : CSRBusState) :
    (csrBusReadSeq size datwidth j vals st).dat_r i
      = (st.r_b >>> ((i - 1) * datwidth)) % 2 ^ datwidth := by
  induction vals generalizing j st with
  | nil => simp at hlen; omega
  | cons v rest ih =>
    show (csrBusReadSeq size datwidth (j + 1) rest
        (csrBusReadStep size datwidth (fun c => c == j) v st)).dat_r i = _
    by_cases hi : i = j
    · rw [csrBusReadSeq_dat_r_past size datwidth rest (j + 1) i (by omega)]
      have hre : (i == j) = true := by simp [hi]
      have hne : ¬ i = 0 := by omega
      simp [csrBusReadStep, hre, hne]
      intro h
      exact absurd hi h
    · have hlen' : i < (j + 1) + rest.length := by
        simp at hlen
        omega
      rw [ih (j + 1) (by omega) (by omega) hlen']
      have hre : (0 == j) = false := by
        simp
        omega
      simp [csrBusReadStep, hre]

/-- C2: for a register configured atomic_r, a chunked read sequence that
strobes chunk 0, 1, ... on consecutive cycles returns, for every chunk i,
bits [i*D, (i+1)*D) of the combinational read value sampled on the first
chunk's strobe cycle, however the value changes on later cycles: chunk 0 and
the buffer latch the full value at the first strobe and every later chunk is
served from the buffer. -/
theorem C2_atomic_chunked_read (size datwidth : Nat) (hDW : datwidth ≤ size)
    (v0 : Nat) (rest : List Nat) (hv : v0 < 2 ^ size) (i : Nat)
    (hi : i < (v0 :: rest).length) :
    (csrBusReadSeq size datwidth 0 (v0 :: rest) ⟨0, fun _ => 0⟩).dat_r i
      = (v0 >>> (i * datwidth)) % 2 ^ datwidth := by
  show (csrBusReadSeq size datwidth 1 rest
      (csrBusReadStep size datwidth (fun c => c == 0) v0 ⟨0, fun _ => 0⟩)).dat_r i = _
  have hbuf : (csrBusReadStep size datwidth (fun c => c == 0) v0 ⟨0, fun _ => 0⟩).r_b
      = v0 >>> datwidth := by
    simp only [csrBusReadStep, beq_self_eq_true, if_true]
    have hlt : v0 >>> datwidth < 2 ^ (size - datwidth) := by
      rw [Nat.shiftRight_eq_div_pow]
      have hpow : (2 : Nat) ^ size = 2 ^ (size - datwidth) * 2 ^ datwidth := by
        rw [← pow_add]
        congr 1
        omega
      apply Nat.div_lt_of_lt_mul
      rw [Nat.mul_comm]
      rw [← hpow]
      exact hv
    exact Nat.mod_eq_of_lt hlt
  by_cases hi0 : i = 0
  · rw [csrBusReadSeq_dat_r_past size datwidth rest 1 i (by omega)]
    simp [csrBusReadStep, hi0]
  · have hlen : i < 1 + rest.length := by
      simp at hi
      omega
    rw [csrBusReadSeq_dat_r_from_buf size datwidth rest 1 i (by omega) (by omega) hlen]
    rw [hbuf]
    rw [← Nat.shiftRight_add]
    congr 2
    have h1 : 1 ≤ i := by omega
    calc datwidth + (i - 1) * datwidth = (1 + (i - 1)) * datwidth := by ring_nf
    _ = i * datwidth := by congr 1; omega

/-- C2 witness: a 32-bit register over an 8-bit bus (4 chunks), with the read
composition changing to 0 right after the first strobe cycle: each chunk
still returns the corresponding byte of the value sampled at the first
chunk's strobe. -/
theorem C2_atomic_chunked_read_witness :
    (csrBusReadSeq 32 8 0 [0xDEADBEEF, 0, 0, 0] ⟨0, fun _ => 0⟩).dat_r 2 = 0xAD ∧
    (csrBusReadSeq 32 8 0 [0xDEADBEEF, 0, 0, 0] ⟨0, fun _ => 0⟩).dat_r 3 = 0xDE := by
  constructor
  · rw [C2_atomic_chunked_read 32 8 (by decide) 0xDEADBEEF [0, 0, 0] (by decide) 2 (by decide)]
    decide
  · rw [C2_atomic_chunked_read 32 8 (by decide) 0xDEADBEEF [0, 0, 0] (by decide) 3 (by decide)]
    decide

/-! ## CSR register model (csr/dsl.py) -/

/-- Access modes of a register or field.
Modelled from the spec: Element.Access from nmigen_soc/csr/bus.py, which is
not under src.  The spec fixes the mode set to R, W and RW; readable and
writable follow the spec reading of each mode, and does_allow a b holds when
mode b grants no capability that mode a lacks.  The source uses does_allow
both for the field-not-broader-than-register check in
_RegisterBuilder._add_field and for the field-permits-mode-M test in
_get_access_bitmask, and the repository test suite pins its value on every
constructor pair exercised there. -/
inductive Access
  | r
  | w
  | rw
deriving DecidableEq

def Access.readable : Access → Bool
  | .r => true
  | .w => false
  | .rw => true

def Access.writable : Access → Bool
  | .r => false
  | .w => true
  | .rw => true

def Access.does_allow (a b : Access) : Bool :=
  (!b.readable || a.readable) && (!b.writable || a.writable)

/-- Field as passed to _RegisterBuilder._add_field (csr/dsl.py
Field.__init__): name, optional access mode (None inherits the register
mode on attach), width, optional explicit startbit, reset value. -/
structure Field where
  name : String
  access : Option Access
  width : Nat
  startbit : Option Nat
  reset_value : Nat
deriving DecidableEq

/-- Field after attachment to a register: startbit resolved and access mode
inherited where it was None. -/
structure BoundField where
  name : String
  access : Access
  width : Nat
  startbit : Nat
  reset_value : Nat
deriving DecidableEq

/-- Exact bit where the field ends: startbit + width - 1, as set by
Field.__init__ and _RegisterBuilder._add_field. -/
def BoundField.endbit (f : BoundField) : Nat := f.startbit + f.width - 1

/-- Register builder state (_RegisterBuilder.__init__): register access
mode, fixed width when one was given, attached fields in insertion order,
running bit counter. -/
structure RegisterBuilder where
  access : Access
  widthOpt : Option Nat
  fields : List BoundField
  bitcount : Nat
deriving DecidableEq

/-- Register width as reported by __len__: the fixed width when given, else
the bit counter. -/
def RegisterBuilder.len (reg : RegisterBuilder) : Nat :=
  reg.widthOpt.getD reg.bitcount

/-- Fresh builder for Register(name, access, width) with no fields yet. -/
def registerInit (access : Access) (widthOpt : Option Nat) : RegisterBuilder :=
  { access := access, widthOpt := widthOpt, fields := [], bitcount := 0 }

/-- Helper _is_bit_overlapping (csr/dsl.py lines 15-21): whether the range
[startbit, endbit] meets any of the listed [startbit, endbit] ranges.  The
arithmetic is over Python ints, hence Int here. -/
def _is_bit_overlapping (startbit endbit : Nat) (bitrange_list : List (Nat × Nat)) : Bool :=
  bitrange_list.any (fun br =>
    decide (max 0 (min (endbit : Int) br.2 - max (startbit : Int) br.1 + 1) ≠ 0))

/-- Errors raised by _RegisterBuilder._add_field.  In the source the name
clash is a NameError and the other three are AttributeErrors distinguished
by message; the specification names the latter OverlapError,
WidthExceededError and AccessViolationError. -/
inductive AddFieldError
  | nameErr
  | overlapErr
  | widthExceededErr
  | accessViolationErr
deriving DecidableEq

/-- Resolved startbit of a field being attached: the explicit startbit when
given, else the current bit counter (auto-placement after the last field). -/
def resolvedStart (reg : RegisterBuilder) (field : Field) : Nat :=
  field.startbit.getD reg.bitcount

/-- Resolved end bit of the field being attached: resolved startbit plus
width minus one. -/
def resolvedEnd (reg : RegisterBuilder) (field : Field) : Nat :=
  resolvedStart reg field + field.width - 1

/-- Updated bit counter of _add_field: endbit + 1 when the new field
extends past the current counter (endbit > bitcount - 1 over Python ints),
else the old counter. -/
def bitcountNext (reg : RegisterBuilder) (field : Field) : Nat :=
  if reg.bitcount ≤ resolvedEnd reg field then resolvedEnd reg field + 1 else reg.bitcount

/-- _RegisterBuilder._add_field (csr/dsl.py lines 724-769): duplicate-name
check, startbit assignment for auto-placed fields, overlap check, bit
counter update, fixed-width check, access-compatibility check and access
inheritance, then insertion.  The signal rebuilding at the end of the
source function keeps no state this embedding needs. -/
def _add_field (reg : RegisterBuilder) (field : Field) :
    Except AddFieldError RegisterBuilder :=
  if reg.fields.any (fun f => f.name == field.name) then .error .nameErr
  else if _is_bit_overlapping (resolvedStart reg field) (resolvedEnd reg field)
      (reg.fields.map (fun f => (f.startbit, f.endbit))) then .error .overlapErr
  else if (match reg.widthOpt with
      | some w => decide (w < bitcountNext reg field)
      | none => false) then .error .widthExceededErr
  else if (match field.access with
      | some a => !(reg.access.does_allow a)
      | none => false) then .error .accessViolationErr
  else
    .ok { reg with
          fields := reg.fields ++
            [⟨field.name, field.access.getD reg.access, field.width,
              resolvedStart reg field, field.reset_value⟩],
          bitcount := bitcountNext reg field }

/-- _RegisterBuilder._get_reset_value: OR of every field reset value
shifted to its startbit. -/
def _get_reset_value (reg : RegisterBuilder) : Nat :=
  reg.fields.foldl (fun acc f => acc ||| (f.reset_value <<< f.startbit)) 0

/-- Python list slice assignment bitmask[start:start+width] = c*width for an
in-range slice: positions [start, start+width) become c. -/
def setRange (l : List Char) (start width : Nat) (c : Char) : List Char :=
  l.mapIdx (fun i x => if start ≤ i ∧ i < start + width then c else x)

/-- LSB-indexed character list built by _get_access_bitmask before its
final reversal: start from len don't-care marks, then for each field in
insertion order overwrite its bit positions with '1' when the field access
mode permits the queried mode and '0' otherwise. -/
def maskCharsLSB (reg : RegisterBuilder) (m : Access) : List Char :=
  reg.fields.foldl
    (fun l f => setRange l f.startbit f.width (if f.access.does_allow m then '1' else '0'))
    (List.replicate reg.len '-')

/-- _RegisterBuilder._get_access_bitmask (csr/dsl.py lines 785-801): the
bitmask character string, most significant bit first, '-' marking bits that
belong to no field. -/
def _get_access_bitmask (reg : RegisterBuilder) (m : Access) : List Char :=
  (maskCharsLSB reg m).reverse

/-- Digit assignment of int(s, 2) applied after str.replace of '-' by '1',
as in _get_rw_bitmasked: both '1' and '-' count as one. -/
def digitDashOne (c : Char) : Nat := if c = '0' then 0 else 1

/-- Digit assignment reading the mask as a plain binary number in which the
don't-care bits contribute zero; this is the reading under which the
specification quotes numeric mask values, since it defines the mask by
field positions only. -/
def digitDashZero (c : Char) : Nat := if c = '1' then 1 else 0

/-- Value of a most-significant-bit-first digit string. -/
def bitsToNat (d : Char → Nat) (s : List Char) : Nat :=
  s.foldl (fun acc c => 2 * acc + d c) 0

/-- Numeric bitmask used by _get_rw_bitmasked (csr/dsl.py line 31): the
bitmask string with '-' replaced by '1', parsed as binary. -/
def maskAllOnes (reg : RegisterBuilder) (m : Access) : Nat :=
  bitsToNat digitDashOne (_get_access_bitmask reg m)

/-- Numeric bitmask with the don't-care bits contributing zero. -/
def maskFieldBits (reg : RegisterBuilder) (m : Access) : Nat :=
  bitsToNat digitDashZero (_get_access_bitmask reg m)

/-- Read path of _get_rw_bitmasked (csr/dsl.py lines 24-41): the register
signal (or, with reset_value set, the register reset value) ANDed with the
read mask in which don't-care bits count as ones. -/
def _get_rw_bitmasked_r (reg : RegisterBuilder) (s : Nat) : Nat :=
  s &&& maskAllOnes reg .r

/-- Write path of _get_rw_bitmasked: bits enabled by the write mask (again
with don't-care bits as ones) come from the bus write data, the remaining
bits keep the register signal. -/
def _get_rw_bitmasked_w (reg : RegisterBuilder) (w_data s : Nat) : Nat :=
  (andNot s (maskAllOnes reg .w)) ||| (w_data &&& maskAllOnes reg .w)

/-- Register built by the end-to-end example of the specification:
Register("fixed_width", "w", width=20) with fields w0 (1 bit, reset 1),
w1 (10 bits, startbit 6, reset 77) and w2 (2 bits, reset 2). -/
def exampleReg : Except AddFieldError RegisterBuilder := do
  let r0 := registerInit .w (some 20)
  let r1 ← _add_field r0 ⟨"w0", none, 1, none, 1⟩
  let r2 ← _add_field r1 ⟨"w1", none, 10, some 6, 77⟩
  _add_field r2 ⟨"w2", none, 2, none, 2⟩

/-- Register state the example builds: w0 at bit 0, w1 at bits 6-15, w2 at
bits 16-17, all write-only by inheritance, 18 bits spanned inside the fixed
width of 20. -/
def exampleRegBuilt : RegisterBuilder :=
  { access := .w, widthOpt := some 20,
    fields := [⟨"w0", .w, 1, 0, 1⟩, ⟨"w1", .w, 10, 6, 77⟩, ⟨"w2", .w, 2, 16, 2⟩],
    bitcount := 18 }

/-- C7: the example register exists, its computed write-access bitmask read
as a binary number (don't-care bits contributing zero) is
0b111111111111000001 and its read-access bitmask is 0; the underlying mask
strings are the MSB-first "--111111111111-----1" and "--000000000000-----0"
of the repository test suite, whose don't-care positions the claim renders
as zeros. -/
theorem C7_bitmask_example :
    exampleReg = .ok exampleRegBuilt ∧
    maskFieldBits exampleRegBuilt .w = 0b111111111111000001 ∧
    maskFieldBits exampleRegBuilt .r = 0 ∧
    _get_access_bitmask exampleRegBuilt .w = [ '-', '-', '1', '1', '1', '1', '1', '1', '1',
      '1', '1', '1', '1', '1', '-', '-', '-', '-', '-', '1' ] ∧
    _get_access_bitmask exampleRegBuilt .r = [ '-', '-', '0', '0', '0', '0', '0', '0', '0',
      '0', '0', '0', '0', '0', '-', '-', '-', '-', '-', '0' ] := by
  refine ⟨rfl, ?_, ?_, ?_, ?_⟩ <;> decide

/-- Pairwise relation stating that the [startbit, endbit] bit ranges of two
attached fields do not intersect. -/
def rangesDisjoint (f g : BoundField) : Prop :=
  f.startbit + f.width ≤ g.startbit ∨ g.startbit + g.width ≤ f.startbit

/-- Register holding one one-bit read-write field named a at bit 0. -/
def c8Reg : RegisterBuilder :=
  { access := .rw, widthOpt := none, fields := [⟨"a", .rw, 1, 0, 0⟩], bitcount := 1 }

/-- C8 counterexample: attaching to c8Reg a field that both reuses the name
a and overlaps bit 0 raises the duplicate-name error, not the overlap
error: the name check precedes the overlap check in
_RegisterBuilder._add_field, so an overlapping field does not always raise
the overlap error. -/
theorem C8_field_overlap_counterexample :
    _add_field (registerInit .rw none) ⟨"a", none, 1, none, 0⟩ = .ok c8Reg ∧
    _add_field c8Reg ⟨"a", none, 1, some 0, 0⟩ = .error .nameErr ∧
    _is_bit_overlapping 0 0 (c8Reg.fields.map (fun f => (f.startbit, f.endbit))) = true := by
  exact ⟨rfl, rfl, by decide⟩

theorem not_overlapping_of_add_ok (reg : RegisterBuilder) (field : Field)
    (reg' : RegisterBuilder) (hok : _add_field reg field = .ok reg') :
    _is_bit_overlapping (resolvedStart reg field) (resolvedEnd reg field)
      (reg.fields.map (fun f => (f.startbit, f.endbit))) = false ∧
    reg'.fields = reg.fields ++
      [⟨field.name, field.access.getD reg.access, field.width,
        resolvedStart reg field, field.reset_value⟩] := by
  unfold _add_field at hok
  split at hok
  next h1 => exact absurd hok (by simp)
  next h1 =>
    split at hok
    next h2 => exact absurd hok (by simp)
    next h2 =>
      split at hok
      next h3 => exact absurd hok (by simp)
      next h3 =>
        split at hok
        next h4 => exact absurd hok (by simp)
        next h4 =>
          refine ⟨by simpa using h2, ?_⟩
          injection hok with h
          rw [← h]

theorem add_field_preserves_disjoint (reg : RegisterBuilder) (field : Field)
    (reg' : RegisterBuilder)
    (hpos : ∀ f ∈ reg.fields, 1 ≤ f.width) (hposf : 1 ≤ field.width)
    (hpw : reg.fields.Pairwise rangesDisjoint)
    (hok : _add_field reg field = .ok reg') :
    reg'.fields.Pairwise rangesDisjoint := by
  obtain ⟨hnov, hfields⟩ := not_overlapping_of_add_ok reg field reg' hok
  rw [hfields, List.pairwise_append]
  refine ⟨hpw, List.pairwise_singleton .., ?_⟩
  intro f hf g hg
  simp only [List.mem_singleton] at hg
  subst hg
  have hnov' := List.any_eq_false.mp hnov
  have hx := hnov' (f.startbit, f.endbit) (List.mem_map_of_mem _ hf)
  simp only [decide_eq_true_eq, Decidable.not_not] at hx
  have hwf := hpos f hf
  have hre : resolvedEnd reg field = resolvedStart reg field + field.width - 1 := rfl
  unfold rangesDisjoint
  simp only [BoundField.endbit] at hx
  dsimp only
  omega

theorem add_field_overlap_raises (reg : RegisterBuilder) (field : Field)
    (hname : ∀ f ∈ reg.fields, ¬ f.name = field.name)
    (hover : ∃ f ∈ reg.fields,
      max (resolvedStart reg field) f.startbit ≤
        min (resolvedEnd reg field) f.endbit) :
    _add_field reg field = .error .overlapErr := by
  unfold _add_field
  have h1 : reg.fields.any (fun f => f.name == field.name) = false := by
    rw [List.any_eq_false]
    intro f hf
    simp only [beq_iff_eq]
    exact fun hc => hname f hf hc
  rw [h1]
  have h2 : _is_bit_overlapping (resolvedStart reg field) (resolvedEnd reg field)
      (reg.fields.map (fun f => (f.startbit, f.endbit))) = true := by
    rw [_is_bit_overlapping, List.any_eq_true]
    obtain ⟨f, hf, hle⟩ := hover
    refine ⟨(f.startbit, f.endbit), List.mem_map_of_mem _ hf, ?_⟩
    simp only [decide_eq_true_eq]
    simp only [BoundField.endbit] at hle ⊢
    omega
  simp [h2]

/-- C8 amended: every register reachable by attaching fields has pairwise
disjoint [startbit, endbit] field ranges (a successful _add_field preserves
disjointness), and attaching a field whose resolved bit range overlaps an
existing field raises the overlap error and does not add the field,
provided the new field's name is not already present: the duplicate-name
check precedes the overlap check, so a clashing name raises the name error
instead. -/
theorem C8_field_overlap_amended (reg : RegisterBuilder) (field : Field)
    (hpos : ∀ f ∈ reg.fields, 1 ≤ f.width) (hposf : 1 ≤ field.width) :
    (∀ reg', reg.fields.Pairwise rangesDisjoint → _add_field reg field = .ok reg' →
      reg'.fields.Pairwise rangesDisjoint) ∧
    ((∀ f ∈ reg.fields, ¬ f.name = field.name) →
      (∃ f ∈ reg.fields,
        max (resolvedStart reg field) f.startbit ≤
          min (resolvedEnd reg field) f.endbit) →
      _add_field reg field = .error .overlapErr) := by
  constructor
  · intro reg' hpw hok
    exact add_field_preserves_disjoint reg field reg' hpos hposf hpw hok
  · intro hname hover
    exact add_field_overlap_raises reg field hname hover

instance rangesDisjointDecidable : ∀ f g, Decidable (rangesDisjoint f g) := fun f g =>
  inferInstanceAs (Decidable (_ ∨ _))

/-- Register obtained from c8Reg by attaching a one-bit field named b at
bit 1. -/
def c8RegGrown : RegisterBuilder :=
  { access := .rw, widthOpt := none,
    fields := [⟨"a", .rw, 1, 0, 0⟩, ⟨"b", .rw, 1, 1, 0⟩], bitcount := 2 }

/-- C8 witness: attaching a fresh-named one-bit field at bit 0 of c8Reg
raises the overlap error, and a successful attach at bit 1 keeps the ranges
pairwise disjoint. -/
theorem C8_field_overlap_amended_witness :
    _add_field c8Reg ⟨"b", none, 1, some 0, 0⟩ = .error .overlapErr ∧
    c8RegGrown.fields.Pairwise rangesDisjoint := by
  constructor
  · refine (C8_field_overlap_amended c8Reg ⟨"b", none, 1, some 0, 0⟩
      ?_ (by decide)).2 ?_ ⟨⟨"a", .rw, 1, 0, 0⟩, by decide, by decide⟩
    · intro f hf
      simp only [c8Reg, List.mem_singleton] at hf
      simp [hf]
    · intro f hf
      simp only [c8Reg, List.mem_singleton] at hf
      simp [hf]
  · refine (C8_field_overlap_amended c8Reg ⟨"b", none, 1, some 1, 0⟩
      ?_ (by decide)).1 c8RegGrown (by decide) rfl
    intro f hf
    simp only [c8Reg, List.mem_singleton] at hf
    simp [hf]

/-! ## Bit-level characterization of the access bitmask -/

/-- Bit k lies inside the range of field f. -/
def covers (f : BoundField) (k : Nat) : Prop :=
  f.startbit ≤ k ∧ k < f.startbit + f.width

instance coversDecidable : ∀ f k, Decidable (covers f k) := fun f k =>
  inferInstanceAs (Decidable (_ ∧ _))

theorem not_covers_of_disjoint_covers (f g : BoundField) (k : Nat)
    (hd : rangesDisjoint f g) (hc : covers g k) : ¬ covers f k := by
  unfold rangesDisjoint at hd
  unfold covers at hc ⊢
  omega

theorem foldl_setSlice_testBit_of_not_covered (g : BoundField → Nat) (l : List BoundField)
    (v k : Nat) (h : ∀ f ∈ l, ¬ covers f k) :
    (l.foldl (fun acc f => setSlice acc f.startbit f.width (g f)) v).testBit k
      = v.testBit k := by
  induction l generalizing v with
  | nil => rfl
  | cons f t ih =>
    have hf := h f (List.mem_cons_self ..)
    unfold covers at hf
    rw [List.foldl_cons, ih _ (fun x hx => h x (List.mem_cons_of_mem _ hx))]
    rw [testBit_setSlice, if_neg hf]

theorem foldl_setSlice_testBit_of_covered (g : BoundField → Nat) (l : List BoundField)
    (v k : Nat) (hpw : l.Pairwise rangesDisjoint) (f : BoundField) (hf : f ∈ l)
    (hc : covers f k) :
    (l.foldl (fun acc f => setSlice acc f.startbit f.width (g f)) v).testBit k
      = (g f).testBit (k - f.startbit) := by
  induction l generalizing v with
  | nil => simp at hf
  | cons f0 t ih =>
    rw [List.pairwise_cons] at hpw
    rw [List.foldl_cons]
    rcases List.mem_cons.mp hf with hef | hmem
    · subst hef
      have hnone : ∀ x ∈ t, ¬ covers x k := fun x hx =>
        not_covers_of_disjoint_covers x f k
          (Or.elim (em (rangesDisjoint f x))
            (fun hd => Or.elim hd (fun h1 => Or.inr h1) (fun h2 => Or.inl h2))
            (fun hnd => absurd (hpw.1 x hx) hnd)) hc
      rw [foldl_setSlice_testBit_of_not_covered g t _ k hnone]
      have hc' := hc
      unfold covers at hc'
      rw [testBit_setSlice, if_pos hc']
    · exact ih _ hpw.2 hmem

theorem length_setRange (L : List Char) (s w : Nat) (c : Char) :
    (setRange L s w c).length = L.length := by
  simp [setRange, List.length_mapIdx]

theorem getD_setRange (L : List Char) (s w : Nat) (c : Char) (k : Nat) :
    (setRange L s w c).getD k '-' =
      if k < L.length then (if s ≤ k ∧ k < s + w then c else L.getD k '-') else '-' := by
  by_cases hk : k < L.length
  · rw [if_pos hk]
    rw [List.getD_eq_getElem?_getD, List.getD_eq_getElem?_getD]
    unfold setRange
    rw [List.getElem?_mapIdx, List.getElem?_eq_getElem hk]
    simp
  · rw [if_neg hk]
    have h2 : (setRange L s w c).length ≤ k := by
      rw [length_setRange]
      omega
    exact List.getD_eq_default _ _ h2

theorem foldl_setRange_getD_of_not_covered (charOf : BoundField → Char)
    (l : List BoundField) (L : List Char) (k : Nat) (h : ∀ f ∈ l, ¬ covers f k) :
    (l.foldl (fun acc f => setRange acc f.startbit f.width (charOf f)) L).getD k '-'
      = L.getD k '-' := by
  induction l generalizing L with
  | nil => rfl
  | cons f t ih =>
    have hf := h f (List.mem_cons_self ..)
    unfold covers at hf
    rw [List.foldl_cons, ih _ (fun x hx => h x (List.mem_cons_of_mem _ hx))]
    rw [getD_setRange]
    by_cases hk : k < L.length
    · rw [if_pos hk, if_neg hf]
    · rw [if_neg hk]
      have h2 : L.length ≤ k := by omega
      rw [List.getD_eq_default _ _ h2]

theorem length_foldl_setRange (charOf : BoundField → Char) (l : List BoundField)
    (L : List Char) :
    (l.foldl (fun acc f => setRange acc f.startbit f.width (charOf f)) L).length
      = L.length := by
  induction l generalizing L with
  | nil => rfl
  | cons f t ih =>
    rw [List.foldl_cons, ih, length_setRange]

theorem foldl_setRange_getD_of_covered (charOf : BoundField → Char)
    (l : List BoundField) (L : List Char) (k : Nat)
    (hpw : l.Pairwise rangesDisjoint) (f : BoundField) (hf : f ∈ l)
    (hc : covers f k) (hk : k < L.length) :
    (l.foldl (fun acc f => setRange acc f.startbit f.width (charOf f)) L).getD k '-'
      = charOf f := by
  induction l generalizing L with
  | nil => simp at hf
  | cons f0 t ih =>
    rw [List.pairwise_cons] at hpw
    rw [List.foldl_cons]
    rcases List.mem_cons.mp hf with hef | hmem
    · subst hef
      have hnone : ∀ x ∈ t, ¬ covers x k := fun x hx =>
        not_covers_of_disjoint_covers x f k
          (Or.elim (em (rangesDisjoint f x))
            (fun hd => Or.elim hd (fun h1 => Or.inr h1) (fun h2 => Or.inl h2))
            (fun hnd => absurd (hpw.1 x hx) hnd)) hc
      rw [foldl_setRange_getD_of_not_covered charOf t _ k hnone]
      have hc' := hc
      unfold covers at hc'
      rw [getD_setRange, if_pos hk, if_pos hc']
    · exact ih _ hpw.2 hmem (by rw [length_setRange]; exact hk)

theorem testBit_foldr_digits (d : Char → Nat) (hd : ∀ c, d c ≤ 1) (l : List Char)
    (k : Nat) :
    (l.foldr (fun c acc => 2 * acc + d c) 0).testBit k
      = (decide (k < l.length) && decide (d (l.getD k '-') = 1)) := by
  induction l generalizing k with
  | nil => simp [Nat.testBit_zero]
  | cons c t ih =>
    rw [List.foldr_cons]
    cases k with
    | zero =>
      rw [Nat.testBit_zero]
      have hdc := hd c
      have hmod : (2 * (t.foldr (fun c acc => 2 * acc + d c) 0) + d c) % 2 = d c := by
        omega
      simp [hmod]
    | succ k =>
      rw [Nat.testBit_succ]
      have hdc := hd c
      have hdiv : (2 * (t.foldr (fun c acc => 2 * acc + d c) 0) + d c) / 2
          = t.foldr (fun c acc => 2 * acc + d c) 0 := by
        omega
      rw [hdiv, ih]
      simp only [List.length_cons]
      have hgd : (c :: t).getD (k + 1) '-' = t.getD k '-' := rfl
      rw [hgd, Bool.eq_iff_iff]
      simp only [Bool.and_eq_true, decide_eq_true_eq]
      omega

theorem bitsToNat_reverse_eq_foldr (d : Char → Nat) (l : List Char) :
    bitsToNat d l.reverse = l.foldr (fun c acc => 2 * acc + d c) 0 := by
  unfold bitsToNat
  rw [List.foldl_reverse]

theorem maskCharsLSB_length (reg : RegisterBuilder) (m : Access) :
    (maskCharsLSB reg m).length = reg.len := by
  unfold maskCharsLSB
  rw [length_foldl_setRange]
  exact List.length_replicate ..

theorem testBit_maskAllOnes_covered (reg : RegisterBuilder) (m : Access)
    (hpw : reg.fields.Pairwise rangesDisjoint)
    (hin : ∀ f ∈ reg.fields, f.startbit + f.width ≤ reg.len)
    (f : BoundField) (hf : f ∈ reg.fields) (k : Nat) (hc : covers f k) :
    (maskAllOnes reg m).testBit k = f.access.does_allow m := by
  unfold maskAllOnes _get_access_bitmask
  rw [bitsToNat_reverse_eq_foldr, testBit_foldr_digits _ (fun c => by unfold digitDashOne; split <;> omega)]
  have hklen : k < reg.len := by
    have := hin f hf
    unfold covers at hc
    omega
  have hlen : k < (maskCharsLSB reg m).length := by rw [maskCharsLSB_length]; exact hklen
  rw [maskCharsLSB_length]
  unfold maskCharsLSB
  rw [foldl_setRange_getD_of_covered _ _ _ _ hpw f hf hc
    (by rw [List.length_replicate]; exact hklen)]
  cases hda : f.access.does_allow m <;> simp [hda, digitDashOne, hklen]

theorem testBit_maskAllOnes_uncovered (reg : RegisterBuilder) (m : Access) (k : Nat)
    (h : ∀ f ∈ reg.fields, ¬ covers f k) :
    (maskAllOnes reg m).testBit k = decide (k < reg.len) := by
  unfold maskAllOnes _get_access_bitmask
  rw [bitsToNat_reverse_eq_foldr, testBit_foldr_digits _ (fun c => by unfold digitDashOne; split <;> omega)]
  rw [maskCharsLSB_length]
  unfold maskCharsLSB
  rw [foldl_setRange_getD_of_not_covered _ _ _ _ h]
  by_cases hk : k < reg.len
  · have : (List.replicate reg.len '-').getD k '-' = '-' := by
      rw [List.getD_eq_getElem?_getD, List.getElem?_replicate]
      simp [hk]
    simp [this, hk, digitDashOne]
  · simp [hk]

theorem does_allow_r_eq_readable (a : Access) : a.does_allow .r = a.readable := by
  cases a <;> rfl

theorem does_allow_w_eq_writable (a : Access) : a.does_allow .w = a.writable := by
  cases a <;> rfl

theorem writable_of_does_allow (a b : Access) (h : a.does_allow b = true)
    (hb : b.writable = true) : a.writable = true := by
  cases a <;> cases b <;> simp_all [Access.does_allow, Access.writable, Access.readable]

/-! ## Register read composition (csr/dsl.py) -/

/-- Read logic of _RegisterStandalone.elaborate (csr/dsl.py lines 524-532)
and of Bank.elaborate (lines 259-267): when the register access mode is
readable and the read strobe is asserted, r_data is the bitmasked register
signal, or the bitmasked register reset value while the reset strobe is
asserted; otherwise r_data is zero (and it is never driven when the
register is not readable).  rst_stb stands for the register reset strobe,
OR-ed with the bank reset strobe in the bank case. -/
def readData (reg : RegisterBuilder) (rst_stb r_stb : Bool) (s : Nat) : Nat :=
  if reg.access.readable then
    if r_stb then
      if rst_stb then _get_rw_bitmasked_r reg (_get_reset_value reg)
      else _get_rw_bitmasked_r reg s
    else 0
  else 0

/-- Read result as the claim words it: the bitwise composition of only the
fields whose access mode permits reading, with every other bit position
(non-readable fields and bits belonging to no field) contributing zero. -/
def specReadData (reg : RegisterBuilder) (s : Nat) : Nat :=
  reg.fields.foldl
    (fun acc f =>
      if f.access.readable then acc ||| (getSlice s f.startbit f.width <<< f.startbit)
      else acc) 0

/-- Register with one read-write one-bit field at bit 0 and a fixed width of
2, leaving bit 1 assigned to no field. -/
def c6Reg : RegisterBuilder :=
  { access := .rw, widthOpt := some 2, fields := [⟨"f0", .rw, 1, 0, 0⟩], bitcount := 1 }

/-- C6 counterexample: on c6Reg (readable, and reachable by one _add_field
call) with register signal 0b10, a bus read returns 0b10: bit 1 belongs to
no field yet reads back 1, because _get_rw_bitmasked turns the don't-care
marks of the access bitmask into ones.  The claim, which demands that
no-field bit positions always contribute zero (composition 0b00 here), is
false on the code. -/
theorem C6_read_composition_counterexample :
    _add_field (registerInit .rw (some 2)) ⟨"f0", none, 1, none, 0⟩ = .ok c6Reg ∧
    readData c6Reg false true 2 = 2 ∧
    (readData c6Reg false true 2).testBit 1 = true ∧
    specReadData c6Reg 2 = 0 := by
  refine ⟨rfl, by decide, by decide, by decide⟩

/-- C6 amended: for a readable register with disjoint, in-width fields, a
strobed bus read returns, at every bit position, the register signal (or,
under reset strobe, the reset value) masked as follows: positions of fields
permitting reads pass through, positions of non-readable fields read as
zero, and positions belonging to no field below the register width also
pass the register signal through (they are included in the read mask), so
they are not always zero. -/
theorem C6_read_composition_amended (reg : RegisterBuilder) (rst_stb : Bool) (s : Nat)
    (hpw : reg.fields.Pairwise rangesDisjoint)
    (hin : ∀ f ∈ reg.fields, f.startbit + f.width ≤ reg.len)
    (hr : reg.access.readable = true) (k : Nat) :
    (readData reg rst_stb true s).testBit k =
      ((match reg.fields.find? (fun f => decide (covers f k)) with
        | some f => f.access.readable
        | none => decide (k < reg.len)) &&
       (if rst_stb then _get_reset_value reg else s).testBit k) := by
  have hmask : (maskAllOnes reg .r).testBit k =
      (match reg.fields.find? (fun f => decide (covers f k)) with
       | some f => f.access.readable
       | none => decide (k < reg.len)) := by
    cases hfind : reg.fields.find? (fun f => decide (covers f k)) with
    | some f =>
      have hmem := List.mem_of_find?_eq_some hfind
      have hcov : covers f k := by simpa using List.find?_some hfind
      rw [testBit_maskAllOnes_covered reg .r hpw hin f hmem k hcov, does_allow_r_eq_readable]
    | none =>
      have hnone : ∀ f ∈ reg.fields, ¬ covers f k := fun f hf => by
        simpa using List.find?_eq_none.mp hfind f hf
      exact testBit_maskAllOnes_uncovered reg .r k hnone
  have hread : readData reg rst_stb true s
      = (if rst_stb then _get_reset_value reg else s) &&& maskAllOnes reg .r := by
    unfold readData _get_rw_bitmasked_r
    rw [hr]
    cases rst_stb <;> simp
  rw [hread, Nat.testBit_land, hmask]
  exact Bool.and_comm ..

/-- C6 witness: on c6Reg with signal 0b10, the amended characterization
evaluates bit 0 (readable field, signal bit 0) to false and bit 1 (no
field, below the width) to the signal bit, which is one. -/
theorem C6_read_composition_amended_witness :
    (readData c6Reg false true 2).testBit 0 = false ∧
    (readData c6Reg false true 2).testBit 1 = true := by
  have hin : ∀ f ∈ c6Reg.fields, f.startbit + f.width ≤ c6Reg.len := by
    intro f hf
    simp only [c6Reg, List.mem_singleton] at hf
    subst hf
    decide
  constructor
  · rw [C6_read_composition_amended c6Reg false 2 (by decide) hin (by decide) 0]
    decide
  · rw [C6_read_composition_amended c6Reg false 2 (by decide) hin (by decide) 1]
    decide

/-! ## Register write-priority resolution (csr/dsl.py) -/

/-- Inputs sampled by the register write logic at one clock edge.
field_stb keys the per-field internal write strobes by field name (each
field owns one strobe signal, and field names inside a register are
unique); the per-field internal write data is the corresponding slice of
int_w_data, exactly as _RegisterBuilder._add_field redefines
field._int_w_data as a slice of the register _int_w_data. -/
structure RegInput where
  rst_stb : Bool
  bank_rst_stb : Bool
  int_w_stb : Bool
  int_w_data : Nat
  w_stb : Bool
  w_data : Nat
  field_stb : String → Bool

/-- Per-field multiplexer chain of the field-strobe branch
(csr/dsl.py lines 542-553, and identically lines 277-288 for a bank): bus
data for a writable field under the bus write strobe, else the current
field bits; overridden by the field internal write data when the field
strobe is set.  All right-hand sides sample the old signal s. -/
def fieldIntWriteMux (inp : RegInput) (s : Nat) (f : BoundField) : Nat :=
  if inp.field_stb f.name then getSlice inp.int_w_data f.startbit f.width
  else if f.access.writable then
    (if inp.w_stb then getSlice inp.w_data f.startbit f.width
     else getSlice s f.startbit f.width)
  else getSlice s f.startbit f.width

/-- Field-strobe branch body: every field slice of the register signal is
assigned its multiplexer value. -/
def applyFieldIntWrites (reg : RegisterBuilder) (inp : RegInput) (s : Nat) : Nat :=
  reg.fields.foldl (fun v f => setSlice v f.startbit f.width (fieldIntWriteMux inp s f)) s

/-- write_from_logic_by_field: OR of all per-field internal write strobes. -/
def anyFieldStb (reg : RegisterBuilder) (inp : RegInput) : Bool :=
  reg.fields.any (fun f => inp.field_stb f.name)

/-- Synchronous next value of the register signal, from the If/Elif chain
of _RegisterStandalone.elaborate (csr/dsl.py lines 521-559); Bank.elaborate
(lines 257-292) generates the same chain with the reset condition OR-ed
with the bank reset strobe, so a standalone register is the
bank_rst_stb = false instance.  Branches in their source order: reset,
whole-register internal write, per-field internal writes, bus write (the
last only generated when the register access mode is writable).
Assignments truncate to the signal width reg.len. -/
def registerNext (reg : RegisterBuilder) (inp : RegInput) (s : Nat) : Nat :=
  if inp.rst_stb || inp.bank_rst_stb then _get_reset_value reg % 2 ^ reg.len
  else if inp.int_w_stb then inp.int_w_data % 2 ^ reg.len
  else if anyFieldStb reg inp then applyFieldIntWrites reg inp s
  else if reg.access.writable && inp.w_stb then
    _get_rw_bitmasked_w reg inp.w_data s % 2 ^ reg.len
  else s

/-- Value source the claim assigns to one field, in the claimed priority
order: reset strobe (register or parent bank), then the field's own
internal write strobe, then the whole-register internal write strobe, then
the bus write gated by the field's access mask, else the old value. -/
def fieldPrioritySource (reg : RegisterBuilder) (inp : RegInput) (s : Nat)
    (f : BoundField) : Nat :=
  if inp.rst_stb || inp.bank_rst_stb then _get_reset_value reg
  else if inp.field_stb f.name then inp.int_w_data
  else if inp.int_w_stb then inp.int_w_data
  else if f.access.writable && inp.w_stb then inp.w_data
  else s

theorem testBit_getSlice_in_range (v start width k : Nat) (h1 : start ≤ k)
    (h2 : k < start + width) :
    (getSlice v start width).testBit (k - start) = v.testBit k := by
  rw [testBit_getSlice]
  have h3 : k - start < width := by omega
  have h4 : start + (k - start) = k := by omega
  simp [h3, h4]

/-- C1: for every attached field of a well-formed register (disjoint
in-width fields whose access modes the register access mode allows), the
field's slice of the next register value equals the field's slice of the
source selected by the claimed priority order: reset strobe (register or
parent bank) over per-field internal write strobe over whole-register
internal write strobe over bus write gated by the field's access mask, the
old value when no source is asserted for the field.  This holds of the bank
chain and, with bank_rst_stb false, of the standalone chain; the per-field
and whole-register internal writes never disagree because the field
internal data is a slice of the register internal data. -/
theorem C1_write_priority (reg : RegisterBuilder) (inp : RegInput) (s : Nat)
    (hpw : reg.fields.Pairwise rangesDisjoint)
    (hin : ∀ f ∈ reg.fields, f.startbit + f.width ≤ reg.len)
    (hacc : ∀ f ∈ reg.fields, reg.access.does_allow f.access = true)
    (f : BoundField) (hf : f ∈ reg.fields) :
    getSlice (registerNext reg inp s) f.startbit f.width
      = getSlice (fieldPrioritySource reg inp s f) f.startbit f.width := by
  have hfin := hin f hf
  unfold registerNext fieldPrioritySource
  by_cases hrst : (inp.rst_stb || inp.bank_rst_stb) = true
  · rw [if_pos hrst, if_pos hrst, getSlice_mod_pow _ _ _ _ hfin]
  · rw [if_neg hrst, if_neg hrst]
    by_cases hint : inp.int_w_stb = true
    · rw [if_pos hint]
      by_cases hfstb : inp.field_stb f.name = true
      · rw [if_pos hfstb, getSlice_mod_pow _ _ _ _ hfin]
      · rw [if_neg hfstb, if_pos hint, getSlice_mod_pow _ _ _ _ hfin]
    · rw [if_neg hint]
      by_cases hany : anyFieldStb reg inp = true
      · rw [if_pos hany]
        apply getSlice_congr
        intro k hk1 hk2
        have hcov : covers f k := ⟨hk1, hk2⟩
        unfold applyFieldIntWrites
        rw [foldl_setSlice_testBit_of_covered _ _ _ _ hpw f hf hcov]
        unfold fieldIntWriteMux
        by_cases hfstb : inp.field_stb f.name = true
        · rw [if_pos hfstb, if_pos hfstb, testBit_getSlice_in_range _ _ _ _ hk1 hk2]
        · rw [if_neg hfstb, if_neg hfstb, if_neg hint]
          by_cases hw : f.access.writable = true
          · rw [if_pos hw]
            by_cases hws : inp.w_stb = true
            · have hand : (f.access.writable && inp.w_stb) = true := by
                rw [hw, hws]
                rfl
              rw [if_pos hws, if_pos hand, testBit_getSlice_in_range _ _ _ _ hk1 hk2]
            · have hand : ¬ ((f.access.writable && inp.w_stb) = true) := by
                simp only [Bool.and_eq_true]
                exact fun hc => hws hc.2
              rw [if_neg hws, if_neg hand, testBit_getSlice_in_range _ _ _ _ hk1 hk2]
          · have hand : ¬ ((f.access.writable && inp.w_stb) = true) := by
              simp only [Bool.and_eq_true]
              exact fun hc => hw hc.1
            rw [if_neg hw, if_neg hand, testBit_getSlice_in_range _ _ _ _ hk1 hk2]
      · rw [if_neg hany]
        have hfstb : ¬ (inp.field_stb f.name = true) := by
          intro hc
          exact hany (List.any_eq_true.mpr ⟨f, hf, hc⟩)
        rw [if_neg hfstb, if_neg hint]
        by_cases hbw : (reg.access.writable && inp.w_stb) = true
        · rw [if_pos hbw, getSlice_mod_pow _ _ _ _ hfin]
          apply getSlice_congr
          intro k hk1 hk2
          have hcov : covers f k := ⟨hk1, hk2⟩
          have hmask := testBit_maskAllOnes_covered reg .w hpw hin f hf k hcov
          rw [does_allow_w_eq_writable] at hmask
          unfold _get_rw_bitmasked_w
          rw [Nat.testBit_lor, testBit_andNot, Nat.testBit_land, hmask]
          have hws : inp.w_stb = true := by
            simp only [Bool.and_eq_true] at hbw
            exact hbw.2
          cases hwf : f.access.writable with
          | true =>
            have hand : (true && inp.w_stb) = true := by
              rw [hws]
              rfl
            rw [if_pos hand]
            simp
          | false =>
            have hand : ¬ ((false && inp.w_stb) = true) := by simp
            rw [if_neg hand]
            simp
        · rw [if_neg hbw]
          have hand : ¬ ((f.access.writable && inp.w_stb) = true) := by
            simp only [Bool.and_eq_true]
            intro hc
            exact hbw (by
              rw [writable_of_does_allow reg.access f.access (hacc f hf) hc.1, hc.2]
              rfl)
          rw [if_neg hand]

/-- Register used by the C1 witness: two two-bit read-write fields a at
bits 0-1 and b at bits 2-3. -/
def c1Reg : RegisterBuilder :=
  { access := .rw, widthOpt := none,
    fields := [⟨"a", .rw, 2, 0, 0⟩, ⟨"b", .rw, 2, 2, 0⟩], bitcount := 4 }

/-- Inputs for the C1 witness: no reset, no whole-register strobe, field a
strobed with internal data 0b10 in its slice, bus write 0b0100 strobed. -/
def c1Inp : RegInput :=
  { rst_stb := false, bank_rst_stb := false, int_w_stb := false, int_w_data := 0b10,
    w_stb := true, w_data := 0b0100, field_stb := fun n => n == "a" }

/-- C1 witness: on c1Reg with signal 0, field a takes its internal write
data (0b10) and field b takes the bus data slice (0b01), so the next value
is 0b0110; both field slices match the claimed priority source. -/
theorem C1_write_priority_witness :
    getSlice (registerNext c1Reg c1Inp 0) 0 2
      = getSlice (fieldPrioritySource c1Reg c1Inp 0 ⟨"a", .rw, 2, 0, 0⟩) 0 2 ∧
    getSlice (registerNext c1Reg c1Inp 0) 2 2
      = getSlice (fieldPrioritySource c1Reg c1Inp 0 ⟨"b", .rw, 2, 2, 0⟩) 2 2 ∧
    registerNext c1Reg c1Inp 0 = 0b0110 := by
  refine ⟨?_, ?_, by decide⟩
  · exact C1_write_priority c1Reg c1Inp 0 (by decide) (by decide) (by decide)
      ⟨"a", .rw, 2, 0, 0⟩ (by decide)
  · exact C1_write_priority c1Reg c1Inp 0 (by decide) (by decide) (by decide)
      ⟨"b", .rw, 2, 2, 0⟩ (by decide)

end NmigenSoc
